import Mathlib

/-!
# Verification of the ainvestorhood5 news-processing pipeline

Shallow embedding of the Scrapy pipeline code in
`scrapy_news_collector/news_scraper/pipelines.py`:

* `DuplicatesPipeline` (exact fingerprint dedup + soft title-similarity check),
* `AIAnalysisPipeline` (remote-analysis update / default values, the heuristic
  instrument extractor `extract_heuristic` and the tradability gate
  `is_tradable`),
* `DatabasePipeline` (date normalization, last-resort instrument handling,
  symbol resolution policy, idempotent insert keyed by `content_hash`).

Python strings are modelled as `List Char` (ASCII semantics for case
conversion, which is what every pattern in the source uses), `re` patterns
are hand-compiled into leftmost-match scanners with the same backtracking
behaviour, hashing (`hashlib.md5`) and date parsing (`dateutil`) are
parameters of the model, and network calls are modelled by their observable
outcomes.
-/

set_option maxRecDepth 20000

/-! ## ASCII character classes (matching the `re` classes used in the source) -/

def isUpperAZ (c : Char) : Bool := 65 ≤ c.toNat && c.toNat ≤ 90

def isLowerAZ (c : Char) : Bool := 97 ≤ c.toNat && c.toNat ≤ 122

def isDigitC (c : Char) : Bool := 48 ≤ c.toNat && c.toNat ≤ 57

def isAsciiLetter (c : Char) : Bool := isUpperAZ c || isLowerAZ c

/-- Python `\s` over ASCII: space, tab, newline, carriage return,
vertical tab, form feed. -/
def isWs (c : Char) : Bool :=
  c.toNat == 32 || c.toNat == 9 || c.toNat == 10 || c.toNat == 13 ||
  c.toNat == 11 || c.toNat == 12

/-- Python `\w` over ASCII: letters, digits and underscore. -/
def isWordChar (c : Char) : Bool :=
  isUpperAZ c || isLowerAZ c || isDigitC c || c.toNat == 95

/-- ASCII lower-casing, as applied by `str.lower()` to the characters the
pipeline's patterns can retain. -/
def toLowerC (c : Char) : Char :=
  if 65 ≤ c.toNat && c.toNat ≤ 90 then Char.ofNat (c.toNat + 32) else c

/-- ASCII upper-casing (`str.upper()` on the matched ASCII groups). -/
def toUpperC (c : Char) : Char :=
  if 97 ≤ c.toNat && c.toNat ≤ 122 then Char.ofNat (c.toNat - 32) else c

/-! ## Python string helpers used by the pipeline -/

/-- Trailing-whitespace removal (the right half of `str.strip()`). -/
def dropEndWs : List Char → List Char
  | [] => []
  | c :: m =>
    let r := dropEndWs m
    if r.isEmpty && isWs c then [] else c :: r

/-- `str.strip()`. -/
def pyStrip (l : List Char) : List Char := dropEndWs (l.dropWhile isWs)

/-- Accumulator worker for `str.split()` (split on whitespace runs,
dropping empty pieces). -/
def splitAux : List Char → List Char → List (List Char)
  | cur, [] => if cur.isEmpty then [] else [cur.reverse]
  | cur, c :: cs =>
    if isWs c then (if cur.isEmpty then [] else [cur.reverse]) ++ splitAux [] cs
    else splitAux (c :: cur) cs

/-- `str.split()` with no separator argument. -/
def pySplit (l : List Char) : List (List Char) := splitAux [] l

/-! ## `DuplicatesPipeline.normalize_title`

```python
text = (text or '').lower()
text = re.sub(r'[^a-z0-9\s]', ' ', text)
text = re.sub(r'\s+', ' ', text).strip()
```
-/

/-- A character kept verbatim by `re.sub(r'[^a-z0-9\s]', ' ', ·)`. -/
def keepChar (c : Char) : Bool := isLowerAZ c || isDigitC c || isWs c

/-- `re.sub(r'[^a-z0-9\s]', ' ', text)`. -/
def sub1 (l : List Char) : List Char :=
  l.map (fun c => if keepChar c then c else ' ')

/-- Worker for `re.sub(r'\s+', ' ', text)`: the flag records whether we are
inside a whitespace run whose replacement space has already been emitted. -/
def collapseAux : Bool → List Char → List Char
  | _, [] => []
  | inWs, c :: cs =>
    if isWs c then (if inWs then [] else [' ']) ++ collapseAux true cs
    else c :: collapseAux false cs

/-- `re.sub(r'\s+', ' ', text)`. -/
def collapseWs (l : List Char) : List Char := collapseAux false l

/-- `DuplicatesPipeline.normalize_title` (pipelines.py lines 20-25). -/
def normalize_title (text : List Char) : List Char :=
  pyStrip (collapseWs (sub1 (text.map toLowerC)))

/-! ## Hand-compiled `re.search` scanners

Each Python pattern used by the pipeline becomes a per-position step
function; `searchAux` tries the step at every position from the left, which
is exactly `re.search`'s leftmost-match rule. The step receives the previous
character so that `\b` can be decided. -/

def searchAux {α : Type} (step : Option Char → List Char → Option α) :
    Option Char → List Char → Option α
  | prev, [] => step prev []
  | prev, c :: cs =>
    match step prev (c :: cs) with
    | some r => some r
    | none => searchAux step (some c) cs

/-- `\b` immediately before a word character, given the previous character. -/
def noWordBefore : Option Char → Bool
  | none => true
  | some c => !isWordChar c

/-- `\b` immediately after a word character, given the remaining input. -/
def boundaryAfter : List Char → Bool
  | [] => true
  | c :: _ => !isWordChar c

/-- Match a literal (case-insensitively when `ci`), returning the rest. -/
def litMatch (ci : Bool) : List Char → List Char → Option (List Char)
  | [], s => some s
  | _ :: _, [] => none
  | p :: ps, c :: cs =>
    if (if ci then toLowerC p == toLowerC c else p == c) then litMatch ci ps cs
    else none

/-! ### `\(([A-Z]{1,6})\)` — parenthesised stock ticker -/

def parenStep (_ : Option Char) : List Char → Option (List Char)
  | '(' :: rest =>
    let r := rest.takeWhile isUpperAZ
    if 1 ≤ r.length && r.length ≤ 6 then
      match rest.drop r.length with
      | ')' :: _ => some r
      | _ => none
    else none
  | _ => none

def parenSearch (s : List Char) : Option (List Char) := searchAux parenStep none s

/-! ### `(nasdaq|nyse|amex|tsx|lse|sehk)\s*[:\-]\s*([A-Z]{1,6})` with `re.I`

Under `re.I` the trailing group also matches lowercase letters; the source
upper-cases the captured group afterwards. -/

def exchWords : List (List Char) :=
  ["nasdaq".data, "nyse".data, "amex".data, "tsx".data, "lse".data, "sehk".data]

def exchTail (rest1 : List Char) : Option (List Char) :=
  match rest1.dropWhile isWs with
  | c :: rest3 =>
    if c == ':' || c == '-' then
      let t := ((rest3.dropWhile isWs).takeWhile isAsciiLetter).take 6
      if t.isEmpty then none else some t
    else none
  | [] => none

def exchStep (_ : Option Char) (s : List Char) : Option (List Char) :=
  (exchWords.filterMap (fun w => (litMatch true w s).bind exchTail)).head?

def exchSearch (s : List Char) : Option (List Char) := searchAux exchStep none s

/-! ### `\b([A-Z]{3})/?([A-Z]{3})\b` — forex pair (case-sensitive) -/

def take3Upper : List Char → Option (List Char × List Char)
  | a :: b :: c :: rest =>
    if isUpperAZ a && isUpperAZ b && isUpperAZ c then some ([a, b, c], rest)
    else none
  | _ => none

def forexStep (prev : Option Char) (s : List Char) :
    Option (List Char × List Char) :=
  if noWordBefore prev then
    match take3Upper s with
    | some (g1, rest1) =>
      let rest1' := match rest1 with
        | '/' :: r => r
        | _ => rest1
      match take3Upper rest1' with
      | some (g2, rest2) => if boundaryAfter rest2 then some (g1, g2) else none
      | none => none
    | none => none
  else none

def forexSearch (s : List Char) : Option (List Char × List Char) :=
  searchAux forexStep none s

/-! ### `\b(w1|w2|...)\b` with `re.I` — keyword alternation

Used for crypto tickers, crypto names and commodity keywords. Returns the
matched slice of the original text (Python's `group(1)`). -/

def kwStep (kws : List (List Char)) (prev : Option Char) (s : List Char) :
    Option (List Char) :=
  if noWordBefore prev then
    (kws.filterMap (fun w =>
      match litMatch true w s with
      | some rest =>
        if boundaryAfter rest then some (s.take w.length) else none
      | none => none)).head?
  else none

def kwSearch (kws : List (List Char)) (s : List Char) : Option (List Char) :=
  searchAux (kwStep kws) none s

def cryptoTickers : List (List Char) :=
  ["btc".data, "eth".data, "sol".data, "ada".data, "xrp".data,
   "doge".data, "usdt".data, "usdc".data, "bnb".data]

def cryptoNames : List (List Char) :=
  ["bitcoin".data, "ethereum".data, "solana".data, "cardano".data,
   "ripple".data, "dogecoin".data]

def commodityWords : List (List Char) :=
  ["gold".data, "silver".data, "oil".data, "brent".data, "wti".data,
   "copper".data, "corn".data, "wheat".data, "soy".data, "natural gas".data]

/-! ### Index patterns

Extraction uses `(s&p|sp500|nasdaq\s*100?|dow\s*jones|dax|ftse|nikkei|cac|hang\s*seng|tsx)`
(note: `nasdaq` must be followed by `10`), `is_tradable` uses the plain
alternation `(s&p|sp500|nasdaq|dow|dax|ftse|nikkei|cac|hang seng|tsx)`;
neither is anchored by `\b`. -/

def litHit (w : List Char) (s : List Char) : Bool := (litMatch true w s).isSome

def litPairHit (w1 w2 : List Char) (s : List Char) : Bool :=
  match litMatch true w1 s with
  | some r => (litMatch true w2 (r.dropWhile isWs)).isSome
  | none => false

def idxExtractAlts : List (List Char → Bool) :=
  [litHit "s&p".data, litHit "sp500".data,
   litPairHit "nasdaq".data "10".data,
   litPairHit "dow".data "jones".data,
   litHit "dax".data, litHit "ftse".data, litHit "nikkei".data,
   litHit "cac".data,
   litPairHit "hang".data "seng".data,
   litHit "tsx".data]

def idxTradAlts : List (List Char → Bool) :=
  [litHit "s&p".data, litHit "sp500".data, litHit "nasdaq".data,
   litHit "dow".data, litHit "dax".data, litHit "ftse".data,
   litHit "nikkei".data, litHit "cac".data, litHit "hang seng".data,
   litHit "tsx".data]

def anyPosHit (alts : List (List Char → Bool)) : List Char → Bool
  | [] => alts.any (fun a => a [])
  | c :: cs => alts.any (fun a => a (c :: cs)) || anyPosHit alts cs

/-! ### `\b[A-Z]{1,6}\b` — bare upper-case ticker (case-sensitive) -/

def bareTickStep (prev : Option Char) (s : List Char) : Option Unit :=
  if noWordBefore prev then
    let r := s.takeWhile isUpperAZ
    if 1 ≤ r.length && r.length ≤ 6 && boundaryAfter (s.drop r.length) then
      some ()
    else none
  else none

def bareTickHit (s : List Char) : Bool := (searchAux bareTickStep none s).isSome

/-! ## `AIAnalysisPipeline.extract_heuristic` and `is_tradable` -/

/-- `text = f"{title} {content}" if content else title`. -/
def mkText (title content : List Char) : List Char :=
  if content.isEmpty then title else title ++ ' ' :: content

/-- Python `str.title()` on a matched keyword slice. -/
def titleAux : Bool → List Char → List Char
  | _, [] => []
  | start, c :: cs =>
    if isAsciiLetter c then (if start then toUpperC c else toLowerC c) :: titleAux false cs
    else c :: titleAux true cs

def titleCase (l : List Char) : List Char := titleAux true l

/-- The crypto-name dictionary, with `.get(name, name.upper())` fallback. -/
def cryptoMap (n : List Char) : List Char :=
  if n = "bitcoin".data then "BTC".data
  else if n = "ethereum".data then "ETH".data
  else if n = "solana".data then "SOL".data
  else if n = "cardano".data then "ADA".data
  else if n = "ripple".data then "XRP".data
  else if n = "dogecoin".data then "DOGE".data
  else n.map toUpperC

/-- `AIAnalysisPipeline.extract_heuristic` (pipelines.py lines 166-202):
tiers tried in the source's order — parenthesised ticker, exchange-prefixed
ticker, forex pair, crypto ticker, crypto name, commodity keyword, index
phrase — first match wins. -/
def extract_heuristic (title content : List Char) :
    Option (List Char × List Char) :=
  let text := mkText title content
  match parenSearch text with
  | some t => some ("Stocks".data, t)
  | none =>
  match exchSearch text with
  | some t => some ("Stocks".data, t.map toUpperC)
  | none =>
  match forexSearch text with
  | some (g1, g2) => some ("Forex".data, g1.map toUpperC ++ '/' :: g2.map toUpperC)
  | none =>
  match kwSearch cryptoTickers text with
  | some t => some ("Crypto".data, t.map toUpperC)
  | none =>
  match kwSearch cryptoNames text with
  | some t => some ("Crypto".data, cryptoMap (t.map toLowerC))
  | none =>
  match kwSearch commodityWords text with
  | some t => some ("Commodities".data, titleCase t)
  | none =>
  if anyPosHit idxExtractAlts text then some ("Indices".data, "Index".data)
  else none

/-- `AIAnalysisPipeline.is_tradable` (pipelines.py lines 147-164). -/
def is_tradable (instrument_type instrument_name title : List Char) : Bool :=
  let t := instrument_type.map toLowerC
  let name := pyStrip instrument_name
  let text := name ++ ' ' :: title
  if name.isEmpty then false
  else if t = "stocks".data then (parenSearch text).isSome || bareTickHit name
  else if t = "forex".data then (forexSearch text).isSome
  else if t = "crypto".data then (kwSearch cryptoTickers text).isSome
  else if t = "commodities".data then (kwSearch commodityWords text).isSome
  else if t = "indices".data then anyPosHit idxTradAlts text
  else false


/-! ## Item model and `AIAnalysisPipeline.process_item` -/

/-- `published_date` as seen by the persister: absent (or falsy), a string,
or a non-string value (e.g. a structured datetime). -/
inductive PubDate
  | absent
  | strv (s : List Char)
  | nonString
deriving DecidableEq

/-- The scrapy item (`NewsItem`) as a record; string fields use `[]` for
missing/empty, which is how the source's truthiness checks read them. -/
structure Item where
  title : List Char := []
  content : List Char := []
  url : List Char := []
  published_date : PubDate := .absent
  content_hash : List Char := []
  instrument_type : List Char := []
  instrument_name : List Char := []
  recommendation : List Char := []
  confidence_score : Int := 0
  analysis : List Char := []
deriving DecidableEq

/-- A remote analysis payload after JSON decoding: each field may be absent
(`analysis_result.get(...)` then falls back to the source's defaults). -/
structure AnalysisResult where
  instrument_type : Option (List Char) := none
  instrument_name : Option (List Char) := none
  recommendation : Option (List Char) := none
  confidence_score : Option Int := none
  analysis : Option (List Char) := none
deriving DecidableEq

/-- Observable outcome of the remote-analysis attempt: provider/client not
configured, any raised error, or a decoded payload. -/
inductive AiOutcome
  | unavailable
  | failure (msg : List Char)
  | success (r : AnalysisResult)

/-- The default-value block shared by the AI-unavailable branch
(pipelines.py lines 208-213) and the exception handler (lines 299-304);
only the `analysis` message differs. -/
def aiDefaults (msg : List Char) (it : Item) : Item :=
  { it with instrument_type := "General".data, instrument_name := [],
            recommendation := "HOLD".data, confidence_score := 50,
            analysis := msg }

/-- The success-path update block (pipelines.py lines 288-294). -/
def aiUpdate (r : AnalysisResult) (it : Item) : Item :=
  { it with
      instrument_type := r.instrument_type.getD ("General".data),
      instrument_name := r.instrument_name.getD [],
      recommendation := r.recommendation.getD ("HOLD".data),
      confidence_score := r.confidence_score.getD 50,
      analysis := r.analysis.getD [] }

/-- `AIAnalysisPipeline.process_item` (pipelines.py lines 204-306), with the
remote call's outcome as a parameter. -/
def aiProcess : AiOutcome → Item → Item
  | .unavailable, it => aiDefaults ("AI analysis not available".data) it
  | .failure msg, it => aiDefaults msg it
  | .success r, it => aiUpdate r it

/-! ## `DuplicatesPipeline.process_item`

The seen "set" is modelled as a list in insertion order (CPython set
iteration order is unspecified; none of the proved facts depend on it).
Note two faithful quirks of the source: the incoming fingerprint is added
to the set *before* the soft check, and the soft check compares the
incoming normalized title's token set against the raw fingerprints in the
set — not against previous titles. -/

/-- The condition `a and b and j >= 0.8` of pipelines.py lines 50-52, over
token sets (Python `set(...)`); `j >= 0.8` is `5*|A∩B| >= 4*|A∪B|`. -/
def jaccardReject (a b : Finset (List Char)) : Bool :=
  a.Nonempty && b.Nonempty && decide (5 * (a ∩ b).card ≥ 4 * (a ∪ b).card)

/-- The stable identifier hashed by `DuplicatesPipeline.process_item`
(pipelines.py lines 29-33): the stripped URL when non-empty, otherwise
title concatenated with content. -/
def dedupBase (it : Item) : List Char :=
  let url := pyStrip it.url
  if url.isEmpty then it.title ++ it.content else url

/-- `DuplicatesPipeline.process_item` (pipelines.py lines 27-57), with the
md5 hex digest as a parameter. Returns the (possibly dropped) item and the
updated seen set. -/
def dedupProcess (hash : List Char → List Char)
    (seen : List (List Char)) (it : Item) :
    Option Item × List (List Char) :=
  let ch := hash (dedupBase it)
  let it1 := { it with content_hash := ch }
  if seen.any (fun h => h == ch) then (none, seen)
  else
    let seen1 := seen ++ [ch]
    let a := (pySplit (normalize_title it1.title)).toFinset
    let rejected := (seen1.take 2000).any
      (fun fp => jaccardReject a (pySplit fp).toFinset)
    if rejected then (none, seen1) else (some it1, seen1)

/-! ## `DatabasePipeline.process_item` -/

/-- A `news_articles` row, with the insert's column list. -/
structure Row where
  title : List Char
  summary : List Char
  instrument_type : List Char
  instrument_name : List Char
  recommendation : List Char
  confidence_score : Int
  source_url : List Char
  content_hash : List Char
  published_at : List Char
deriving DecidableEq

/-- Observable outcome of the `POST /api/resolve-yahoo` call: a 200 response
carrying an optional symbol, a non-200 status, or a raised exception. -/
inductive ResolveOutcome
  | ok (symbol : Option (List Char))
  | httpError
  | exnRaised
deriving DecidableEq

/-- What `DatabasePipeline.process_item` did to storage. `errorRollback` is
the outer exception handler (log + rollback, pipelines.py lines 433-435). -/
inductive DbOutcome
  | inserted
  | alreadyExists
  | dropped
  | errorRollback
deriving DecidableEq

/-- External facts the persister consults: the md5 digest, `dateutil`
parsing composed with `isoformat()`, the current time's isoformat, the
`ALLOW_UNVERIFIED_INSTRUMENTS` policy flag, and the resolver call outcome. -/
structure DbEnv where
  hash : List Char → List Char
  parseDate : List Char → Option (List Char)
  now : List Char
  allowUnverified : Bool
  resolve : ResolveOutcome

/-- The `content_hash` the persister works with (pipelines.py lines 341-344):
recomputed from title+content when missing. -/
def chEff (env : DbEnv) (it : Item) : List Char :=
  if it.content_hash.isEmpty then env.hash (it.title ++ it.content)
  else it.content_hash

/-- Date normalization (pipelines.py lines 358-373): a truthy string is
parsed (falling back to now), anything else becomes now. -/
def normalizePub (parse : List Char → Option (List Char)) (now : List Char) :
    PubDate → List Char
  | .absent => now
  | .nonString => now
  | .strv s =>
    if s.isEmpty then now
    else match parse s with
      | some iso => iso
      | none => now

/-- The row built by the INSERT (pipelines.py lines 412-427). -/
def mkRow (it : Item) (published_at : List Char) : Row :=
  { title := it.title, summary := it.analysis,
    instrument_type := it.instrument_type,
    instrument_name := it.instrument_name,
    recommendation := it.recommendation,
    confidence_score := it.confidence_score,
    source_url := it.url, content_hash := it.content_hash,
    published_at := published_at }

/-- `DatabasePipeline.process_item` (pipelines.py lines 335-437).

Faithful detail: when `instrument_name` is empty the source calls
`self.extract_heuristic`, a method `DatabasePipeline` does not define; the
resulting `AttributeError` is caught by the outer handler, which logs,
rolls back and returns the item — so no row is written (`errorRollback`). -/
def dbProcess (env : DbEnv) (storage : List Row) (it : Item) :
    DbOutcome × List Row × Item :=
  let ch := chEff env it
  let it1 := { it with content_hash := ch }
  if storage.any (fun r => r.content_hash == ch) then
    (.alreadyExists, storage, it1)
  else
    let published_at := normalizePub env.parseDate env.now it1.published_date
    if it1.instrument_name.isEmpty then
      (.errorRollback, storage, it1)
    else
      let proceed : Option Item :=
        match env.resolve with
        | .ok (some s) => some { it1 with instrument_name := s }
        | .ok none => if env.allowUnverified then some it1 else none
        | .httpError => if env.allowUnverified then some it1 else none
        | .exnRaised => if env.allowUnverified then some it1 else none
      match proceed with
      | none => (.dropped, storage, it1)
      | some it2 => (.inserted, storage ++ [mkRow it2 published_at], it2)

/-! ## Derived predicates on the persister environment -/

/-- All stored rows carry pairwise distinct fingerprints. -/
def hashesDistinct (storage : List Row) : Prop :=
  storage.Pairwise (fun r s => r.content_hash ≠ s.content_hash)

/-- The resolver step lets the item through to the INSERT: either a symbol
was returned, or no symbol was obtained and the allow-unverified policy is
enabled. -/
def resolveProceeds (env : DbEnv) : Prop :=
  (∃ s, env.resolve = .ok (some s)) ∨
  ((env.resolve = .ok none ∨ env.resolve = .httpError ∨
    env.resolve = .exnRaised) ∧ env.allowUnverified = true)

/-- The resolver produced no symbol: empty 200 payload, non-200, or raise. -/
def noSymbol (r : ResolveOutcome) : Prop :=
  r = .ok none ∨ r = .httpError ∨ r = .exnRaised

instance (r : ResolveOutcome) : Decidable (noSymbol r) := by
  unfold noSymbol
  infer_instance

/-! ## Concrete fixtures used by the claim-level theorems -/

def c2ItemA : Item :=
  { title := "Apple stock surges after earnings beat".data,
    url := "https://news.example/apple-1".data }

def c2ItemB : Item :=
  { title := "Apple stock surges after earnings beat report".data,
    url := "https://news.example/apple-2".data }

/-- A stand-in with the shape of an md5 hex digest (32 chars, no spaces). -/
def c2HashA : List Char := "aaaaaaaaaaaaaaaaaaaaaaaaaaaaaaaa".data

def c2HashB : List Char := "bbbbbbbbbbbbbbbbbbbbbbbbbbbbbbbb".data

def c2Hash (b : List Char) : List Char :=
  if b == dedupBase c2ItemA then c2HashA else c2HashB

def c1Analysis : AnalysisResult :=
  { instrument_type := some ("Stocks".data),
    instrument_name := some ("AAPL".data),
    recommendation := some ("HOLD".data),
    confidence_score := some 80,
    analysis := some ("Hold through earnings.".data) }

def c1Item : Item :=
  { title := "Apple steady ahead of earnings".data,
    content := "Shares were flat in premarket trade.".data,
    url := "https://news.example/apple-hold".data }

def c1Env : DbEnv :=
  { hash := fun _ => "0123abcd".data, parseDate := fun _ => none,
    now := "2025-06-01T00:00:00".data, allowUnverified := true,
    resolve := .ok (some ("AAPL".data)) }

def c3Item : Item :=
  { title := "Gold prices plunge amid selloff fears".data,
    content := "Metals slid broadly.".data,
    url := "https://news.example/gold-selloff".data }

def c3Env : DbEnv :=
  { hash := fun _ => "feedface".data, parseDate := fun _ => none,
    now := "2025-06-01T00:00:00".data, allowUnverified := true,
    resolve := .ok none }

def c4Row : Row :=
  { title := "Old article".data, summary := "s".data,
    instrument_type := "Stocks".data, instrument_name := "MSFT".data,
    recommendation := "BUY".data, confidence_score := 70,
    source_url := "https://news.example/msft".data,
    content_hash := "cafe0001".data,
    published_at := "2025-05-01T00:00:00".data }

def c4Item : Item :=
  { title := "Old article".data, content := "body".data,
    url := "https://news.example/msft".data,
    content_hash := "cafe0001".data,
    instrument_type := "Stocks".data, instrument_name := "MSFT".data,
    recommendation := "BUY".data, confidence_score := 70,
    analysis := "s".data }

def c4Env : DbEnv :=
  { hash := fun _ => "cafe0002".data, parseDate := fun _ => none,
    now := "2025-06-01T00:00:00".data, allowUnverified := true,
    resolve := .ok none }

def c7Item : Item :=
  { title := "Euro gains".data, content := "EUR/USD rose.".data,
    url := "https://news.example/eurusd".data,
    content_hash := "beef0001".data,
    instrument_type := "Forex".data, instrument_name := "EUR/USD".data,
    recommendation := "BUY".data, confidence_score := 60,
    analysis := "momentum".data }

def c7EnvSym : DbEnv :=
  { hash := fun _ => "beef0002".data, parseDate := fun _ => none,
    now := "2025-06-01T00:00:00".data, allowUnverified := true,
    resolve := .ok (some ("EURUSD=X".data)) }

def c7EnvDrop : DbEnv :=
  { hash := fun _ => "beef0002".data, parseDate := fun _ => none,
    now := "2025-06-01T00:00:00".data, allowUnverified := false,
    resolve := .httpError }

def c7EnvKeep : DbEnv :=
  { hash := fun _ => "beef0002".data, parseDate := fun _ => none,
    now := "2025-06-01T00:00:00".data, allowUnverified := true,
    resolve := .exnRaised }

def c8Parse (s : List Char) : Option (List Char) :=
  if s == "2024-12-31".data then some ("2024-12-31T00:00:00".data) else none

def c8Item : Item :=
  { title := "Dated".data, content := "body".data,
    url := "https://news.example/dated".data,
    content_hash := "dead0001".data,
    published_date := .strv ("2024-12-31".data),
    instrument_type := "Stocks".data, instrument_name := "AAPL".data,
    recommendation := "SELL".data, confidence_score := 55,
    analysis := "a".data }

def c8Env : DbEnv :=
  { hash := fun _ => "dead0002".data, parseDate := c8Parse,
    now := "2025-06-01T00:00:00".data, allowUnverified := true,
    resolve := .ok none }

/-! ## Shape of `normalize_title` output -/

/-- A lowercase-alphanumeric character. -/
def goodChar (c : Char) : Bool := isLowerAZ c || isDigitC c

/-- The list does not start with whitespace. -/
def startsNoWs : List Char → Bool
  | [] => true
  | c :: _ => !isWs c

/-- The list does not end with whitespace. -/
def endsNoWs : List Char → Bool
  | [] => true
  | [c] => !isWs c
  | _ :: c :: m => endsNoWs (c :: m)

/-- No two adjacent whitespace characters. -/
def noAdjWs : List Char → Bool
  | [] => true
  | c :: m => (!isWs c || startsNoWs m) && noAdjWs m

/-- Combined output-shape invariant of `normalize_title`. -/
def normedShape (l : List Char) : Bool :=
  l.all (fun c => goodChar c || c == ' ') && noAdjWs l &&
  startsNoWs l && endsNoWs l

theorem keepChar_of_goodChar {c : Char} (h : goodChar c = true) :
    keepChar c = true := by
  simp [goodChar, keepChar] at h ⊢
  tauto

theorem not_ws_of_goodChar {c : Char} (h : goodChar c = true) :
    isWs c = false := by
  simp only [goodChar, isLowerAZ, isDigitC, Bool.or_eq_true, Bool.and_eq_true,
    decide_eq_true_eq] at h
  rw [Bool.eq_false_iff]
  intro hw
  simp only [isWs, Bool.or_eq_true, beq_iff_eq] at hw
  omega

theorem goodChar_of_keep_not_ws {c : Char} (hk : keepChar c = true)
    (hw : isWs c = false) : goodChar c = true := by
  have hw' : ¬(isWs c = true) := by simp [hw]
  simp only [keepChar, Bool.or_eq_true] at hk
  simp only [goodChar, Bool.or_eq_true]
  rcases hk with h | h
  · exact h
  · exact absurd h hw'

theorem toLowerC_fix {c : Char} (h : goodChar c = true ∨ c = ' ') :
    toLowerC c = c := by
  rcases h with h | rfl
  · simp only [goodChar, isLowerAZ, isDigitC, Bool.or_eq_true, Bool.and_eq_true,
      decide_eq_true_eq] at h
    have hcond : (65 ≤ c.toNat && c.toNat ≤ 90) = false := by
      rw [Bool.eq_false_iff]
      intro hc
      simp only [Bool.and_eq_true, decide_eq_true_eq] at hc
      omega
    simp [toLowerC, hcond]
  · decide

theorem sub1_all_keep (l : List Char) : (sub1 l).all keepChar = true := by
  induction l with
  | nil => rfl
  | cons c cs ih =>
    simp only [sub1, List.map_cons, List.all_cons, Bool.and_eq_true] at ih ⊢
    refine ⟨?_, ih⟩
    by_cases h : keepChar c = true
    · simp [h]
    · simp [Bool.not_eq_true] at h
      simp [h]
      decide

theorem collapseAux_all {l : List Char} (h : l.all keepChar = true) (b : Bool) :
    (collapseAux b l).all (fun c => goodChar c || c == ' ') = true := by
  induction l generalizing b with
  | nil => rfl
  | cons c cs ih =>
    simp only [List.all_cons, Bool.and_eq_true] at h
    by_cases hw : isWs c = true
    · cases b with
      | true => simpa [collapseAux, hw] using ih h.2 true
      | false =>
        simp only [collapseAux, hw, if_true, if_false, List.cons_append,
          List.nil_append, List.all_cons]
        have := ih h.2 true
        simp [this]
    · simp only [Bool.not_eq_true] at hw
      have hg := goodChar_of_keep_not_ws h.1 hw
      have h2 := ih h.2 false
      simp [collapseAux, hw, hg, h2]

theorem collapseAux_true_starts (l : List Char) :
    startsNoWs (collapseAux true l) = true := by
  induction l with
  | nil => rfl
  | cons c cs ih =>
    by_cases hw : isWs c = true
    · simpa [collapseAux, hw] using ih
    · simp only [Bool.not_eq_true] at hw
      simp [collapseAux, hw, startsNoWs]

theorem collapseAux_noAdj (l : List Char) (b : Bool) :
    noAdjWs (collapseAux b l) = true := by
  induction l generalizing b with
  | nil => rfl
  | cons c cs ih =>
    by_cases hw : isWs c = true
    · cases b with
      | true => simpa [collapseAux, hw] using ih true
      | false =>
        have h1 := collapseAux_true_starts cs
        have h2 := ih true
        simp [collapseAux, hw, noAdjWs, h1, h2]
    · simp only [Bool.not_eq_true] at hw
      have h2 := ih false
      simp [collapseAux, hw, noAdjWs, h2]

theorem dropWhile_starts (l : List Char) :
    startsNoWs (l.dropWhile isWs) = true := by
  induction l with
  | nil => rfl
  | cons c cs ih =>
    by_cases hw : isWs c = true
    · simpa [List.dropWhile_cons, hw] using ih
    · simp only [Bool.not_eq_true] at hw
      simp [List.dropWhile_cons, hw, startsNoWs]

theorem dropWhile_all {p q : Char → Bool} {l : List Char}
    (h : l.all p = true) : (l.dropWhile q).all p = true := by
  induction l with
  | nil => rfl
  | cons c cs ih =>
    simp only [List.all_cons, Bool.and_eq_true] at h
    by_cases hw : q c = true
    · simpa [List.dropWhile_cons, hw] using ih h.2
    · simp only [Bool.not_eq_true] at hw
      simp [List.dropWhile_cons, hw, List.all_cons, h.1, h.2]

theorem dropWhile_noAdj {l : List Char} (h : noAdjWs l = true) :
    noAdjWs (l.dropWhile isWs) = true := by
  induction l with
  | nil => rfl
  | cons c cs ih =>
    simp only [noAdjWs, Bool.and_eq_true] at h
    by_cases hw : isWs c = true
    · simpa [List.dropWhile_cons, hw] using ih h.2
    · simp only [Bool.not_eq_true] at hw
      simp only [List.dropWhile_cons, hw]
      simp [noAdjWs, h.1, h.2, hw]

theorem dropEndWs_starts_cons (c : Char) (m : List Char) :
    dropEndWs (c :: m) = [] ∨ ∃ r, dropEndWs (c :: m) = c :: r := by
  simp only [dropEndWs]
  by_cases h : ((dropEndWs m).isEmpty && isWs c) = true
  · simp [h]
  · simp only [Bool.not_eq_true] at h
    simp [h]

theorem dropEndWs_starts {l : List Char} (h : startsNoWs l = true) :
    startsNoWs (dropEndWs l) = true := by
  cases l with
  | nil => rfl
  | cons c m =>
    rcases dropEndWs_starts_cons c m with h1 | ⟨r, h1⟩
    · simp [h1, startsNoWs]
    · simpa [h1, startsNoWs] using h

theorem dropEndWs_all {p : Char → Bool} {l : List Char}
    (h : l.all p = true) : (dropEndWs l).all p = true := by
  induction l with
  | nil => rfl
  | cons c cs ih =>
    simp only [List.all_cons, Bool.and_eq_true] at h
    have ih2 := ih h.2
    simp only [dropEndWs]
    by_cases hc : ((dropEndWs cs).isEmpty && isWs c) = true
    · simp [hc]
    · simp only [Bool.not_eq_true] at hc
      simp [hc, List.all_cons, h.1, ih2]

theorem dropEndWs_noAdj {l : List Char} (h : noAdjWs l = true) :
    noAdjWs (dropEndWs l) = true := by
  induction l with
  | nil => rfl
  | cons c cs ih =>
    simp only [noAdjWs, Bool.and_eq_true] at h
    have ih2 := ih h.2
    simp only [dropEndWs]
    by_cases hc : ((dropEndWs cs).isEmpty && isWs c) = true
    · simp [hc, noAdjWs]
    · simp only [Bool.not_eq_true] at hc
      simp only [hc, if_false, noAdjWs, Bool.and_eq_true]
      refine ⟨?_, ih2⟩
      by_cases hwc : isWs c = true
      · have hs : startsNoWs cs = true := by simpa [hwc] using h.1
        have := dropEndWs_starts hs
        simp [this]
      · simp only [Bool.not_eq_true] at hwc
        simp [hwc]

theorem dropEndWs_ends (l : List Char) : endsNoWs (dropEndWs l) = true := by
  induction l with
  | nil => rfl
  | cons c cs ih =>
    simp only [dropEndWs]
    by_cases hc : ((dropEndWs cs).isEmpty && isWs c) = true
    · simp [hc, endsNoWs]
    · simp only [Bool.not_eq_true] at hc
      simp only [hc, if_false]
      cases hd : dropEndWs cs with
      | nil =>
        rw [hd] at hc
        simp at hc
        simp [endsNoWs, hc]
      | cons d m =>
        rw [hd] at ih
        simpa [endsNoWs] using ih

theorem normalize_title_shape (s : List Char) :
    normedShape (normalize_title s) = true := by
  unfold normedShape normalize_title pyStrip collapseWs
  have hall := collapseAux_all (sub1_all_keep (s.map toLowerC)) false
  have hadj := collapseAux_noAdj (sub1 (s.map toLowerC)) false
  have h1 := dropEndWs_all (dropWhile_all (q := isWs) hall)
  have h2 := dropEndWs_noAdj (dropWhile_noAdj hadj)
  have h3 := dropEndWs_starts
    (dropWhile_starts (collapseAux false (sub1 (s.map toLowerC))))
  have h4 := dropEndWs_ends
    ((collapseAux false (sub1 (s.map toLowerC))).dropWhile isWs)
  simp [h1, h2, h3, h4]

theorem map_toLowerC_id {l : List Char}
    (h : l.all (fun c => goodChar c || c == ' ') = true) :
    l.map toLowerC = l := by
  induction l with
  | nil => rfl
  | cons c cs ih =>
    simp only [List.all_cons, Bool.and_eq_true] at h
    have hc : goodChar c = true ∨ c = ' ' := by
      rcases Bool.or_eq_true _ _ |>.mp h.1 with h' | h'
      · exact Or.inl h'
      · exact Or.inr (by simpa using h')
    simp [List.map_cons, toLowerC_fix hc, ih h.2]

theorem sub1_id {l : List Char}
    (h : l.all (fun c => goodChar c || c == ' ') = true) :
    sub1 l = l := by
  induction l with
  | nil => rfl
  | cons c cs ih =>
    simp only [List.all_cons, Bool.and_eq_true] at h
    have hc : keepChar c = true := by
      rcases Bool.or_eq_true _ _ |>.mp h.1 with h' | h'
      · exact keepChar_of_goodChar h'
      · have : c = ' ' := by simpa using h'
        rw [this]; decide
    simp [sub1, List.map_cons, hc]
    simpa [sub1] using ih h.2

theorem collapseAux_id {l : List Char}
    (ha : l.all (fun c => goodChar c || c == ' ') = true)
    (hn : noAdjWs l = true) :
    collapseAux false l = l ∧
      (startsNoWs l = true → collapseAux true l = l) := by
  induction l with
  | nil => exact ⟨rfl, fun _ => rfl⟩
  | cons c cs ih =>
    simp only [List.all_cons, Bool.and_eq_true] at ha
    simp only [noAdjWs, Bool.and_eq_true] at hn
    rcases ih ha.2 hn.2 with ⟨ihf, iht⟩
    by_cases hw : isWs c = true
    · have hsp : c = ' ' := by
        rcases Bool.or_eq_true _ _ |>.mp ha.1 with h' | h'
        · rw [not_ws_of_goodChar h'] at hw; cases hw
        · simpa using h'
      have hs : startsNoWs cs = true := by simpa [hw] using hn.1
      constructor
      · simp only [collapseAux, hw, if_true, List.cons_append, List.nil_append]
        rw [hsp, iht hs]
        simp
      · intro hstart
        simp only [startsNoWs, hw] at hstart
        cases hstart
    · simp only [Bool.not_eq_true] at hw
      constructor
      · simp [collapseAux, hw, ihf]
      · intro _
        simp [collapseAux, hw, ihf]

theorem dropWhile_id_of_starts {l : List Char} (h : startsNoWs l = true) :
    l.dropWhile isWs = l := by
  cases l with
  | nil => rfl
  | cons c cs =>
    simp only [startsNoWs, Bool.not_eq_true'] at h
    simp [List.dropWhile_cons, h]

theorem dropEndWs_id_of_ends {l : List Char} (h : endsNoWs l = true) :
    dropEndWs l = l := by
  induction l with
  | nil => rfl
  | cons c cs ih =>
    cases cs with
    | nil =>
      simp only [endsNoWs, Bool.not_eq_true'] at h
      simp [dropEndWs, h]
    | cons d m =>
      have h' : endsNoWs (d :: m) = true := by simpa [endsNoWs] using h
      have ih2 := ih h'
      have step : dropEndWs (c :: d :: m) =
          (if (dropEndWs (d :: m)).isEmpty && isWs c then []
           else c :: dropEndWs (d :: m)) := rfl
      rw [step, ih2]
      simp

theorem normalize_title_id {l : List Char} (h : normedShape l = true) :
    normalize_title l = l := by
  simp only [normedShape, Bool.and_eq_true] at h
  obtain ⟨⟨⟨hall, hadj⟩, hst⟩, hen⟩ := h
  unfold normalize_title pyStrip collapseWs
  rw [map_toLowerC_id hall, sub1_id hall, (collapseAux_id hall hadj).1,
    dropWhile_id_of_starts hst, dropEndWs_id_of_ends hen]

theorem normalize_title_idem (s : List Char) :
    normalize_title (normalize_title s) = normalize_title s :=
  normalize_title_id (normalize_title_shape s)

/-! ## Lemmas about the deduplicator -/

theorem splitAux_no_ws (h : List Char) (cur : List Char)
    (hws : ∀ c ∈ h, isWs c = false) :
    splitAux cur h = if cur.reverse ++ h = [] then [] else [cur.reverse ++ h] := by
  induction h generalizing cur with
  | nil =>
    simp only [splitAux, List.append_nil]
    by_cases hc : cur.isEmpty = true
    · have : cur = [] := by simpa [List.isEmpty_iff] using hc
      simp [this]
    · simp only [Bool.not_eq_true] at hc
      have : cur ≠ [] := by
        intro h0
        rw [h0] at hc
        cases hc
      have hr : cur.reverse ≠ [] := by simpa using this
      simp [hc, hr, this]
  | cons c cs ih =>
    have hc : isWs c = false := hws c (by simp)
    have hrest : ∀ x ∈ cs, isWs x = false := fun x hx => hws x (by simp [hx])
    simp only [splitAux, hc, if_false]
    rw [ih (c :: cur) hrest]
    simp [List.append_assoc]

theorem pySplit_no_ws {h : List Char} (hne : h ≠ [])
    (hws : ∀ c ∈ h, isWs c = false) : pySplit h = [h] := by
  unfold pySplit
  rw [splitAux_no_ws h [] hws]
  simp [hne]

theorem jaccardReject_single_not_mem (a : Finset (List Char))
    {h : List Char} (hm : h ∉ a) : jaccardReject a {h} = false := by
  unfold jaccardReject
  have hinter : a ∩ {h} = ∅ := Finset.inter_singleton_of_not_mem hm
  have hcard : 1 ≤ (a ∪ {h}).card := by
    refine Finset.card_pos.mpr ⟨h, ?_⟩
    simp
  have : ¬(5 * (a ∩ {h}).card ≥ 4 * (a ∪ {h}).card) := by
    rw [hinter]
    simp only [Finset.card_empty, Nat.mul_zero]
    omega
  simp [this]

/-- Acceptance characterization of the deduplicator: a fresh fingerprint
whose soft check fires on no stored fingerprint is accepted, and the
fingerprint is retained. -/
theorem dedupProcess_accepts (hash : List Char → List Char)
    (seen : List (List Char)) (it : Item)
    (hnew : (seen.any (fun h => h == hash (dedupBase it))) = false)
    (hsoft : ∀ fp ∈ (seen ++ [hash (dedupBase it)]).take 2000,
      jaccardReject ((pySplit (normalize_title it.title)).toFinset)
        ((pySplit fp).toFinset) = false) :
    dedupProcess hash seen it =
      (some { it with content_hash := hash (dedupBase it) },
       seen ++ [hash (dedupBase it)]) := by
  unfold dedupProcess
  simp only [hnew, if_false]
  have hrej : ((seen ++ [hash (dedupBase it)]).take 2000).any
      (fun fp => jaccardReject ((pySplit (normalize_title it.title)).toFinset)
        ((pySplit fp).toFinset)) = false := by
    rw [List.any_eq_false]
    intro x hx
    simp [hsoft x hx]
  simp [hrej]

/-! ## Lemmas about the persister -/

theorem dbProcess_alreadyExists (env : DbEnv) (storage : List Row) (it : Item)
    (hdup : storage.any (fun r => r.content_hash == chEff env it) = true) :
    dbProcess env storage it =
      (.alreadyExists, storage, { it with content_hash := chEff env it }) := by
  unfold dbProcess
  simp [hdup]

theorem dbProcess_emptyName (env : DbEnv) (storage : List Row) (it : Item)
    (hfresh : storage.any (fun r => r.content_hash == chEff env it) = false)
    (hname : it.instrument_name.isEmpty = true) :
    dbProcess env storage it =
      (.errorRollback, storage, { it with content_hash := chEff env it }) := by
  unfold dbProcess
  simp [hfresh, hname]

theorem dbProcess_symbolOverwrite (env : DbEnv) (storage : List Row) (it : Item)
    (s : List Char)
    (hfresh : storage.any (fun r => r.content_hash == chEff env it) = false)
    (hname : it.instrument_name.isEmpty = false)
    (hres : env.resolve = .ok (some s)) :
    dbProcess env storage it =
      (.inserted,
       storage ++ [mkRow { it with content_hash := chEff env it,
                                   instrument_name := s }
         (normalizePub env.parseDate env.now it.published_date)],
       { it with content_hash := chEff env it, instrument_name := s }) := by
  unfold dbProcess
  simp [hfresh, hname, hres]

theorem dbProcess_noSymbol_drop (env : DbEnv) (storage : List Row) (it : Item)
    (hfresh : storage.any (fun r => r.content_hash == chEff env it) = false)
    (hname : it.instrument_name.isEmpty = false)
    (hres : noSymbol env.resolve)
    (hpol : env.allowUnverified = false) :
    dbProcess env storage it =
      (.dropped, storage, { it with content_hash := chEff env it }) := by
  unfold dbProcess
  rcases hres with h | h | h <;> simp [hfresh, hname, h, hpol]

theorem dbProcess_noSymbol_keep (env : DbEnv) (storage : List Row) (it : Item)
    (hfresh : storage.any (fun r => r.content_hash == chEff env it) = false)
    (hname : it.instrument_name.isEmpty = false)
    (hres : noSymbol env.resolve)
    (hpol : env.allowUnverified = true) :
    dbProcess env storage it =
      (.inserted,
       storage ++ [mkRow { it with content_hash := chEff env it }
         (normalizePub env.parseDate env.now it.published_date)],
       { it with content_hash := chEff env it }) := by
  unfold dbProcess
  rcases hres with h | h | h <;> simp [hfresh, hname, h, hpol]

/-! ## Claim-level theorems -/

/-- C10: `normalize_title` is total and idempotent — for every input the
output consists only of lowercase ASCII letters, digits and single
separating spaces, with no leading or trailing space and no two adjacent
spaces, and normalizing an output again returns it unchanged. -/
theorem C10_normalize_title_idempotent (s : List Char) :
    ((normalize_title s).all (fun c => goodChar c || c == ' ') = true ∧
     noAdjWs (normalize_title s) = true ∧
     startsNoWs (normalize_title s) = true ∧
     endsNoWs (normalize_title s) = true) ∧
    normalize_title (normalize_title s) = normalize_title s := by
  have hs := normalize_title_shape s
  simp only [normedShape, Bool.and_eq_true] at hs
  exact ⟨⟨hs.1.1.1, hs.1.1.2, hs.1.2, hs.2⟩, normalize_title_idem s⟩

/-- C5: the Instrument Extractor evaluates its tiers in a fixed priority
order with first match winning and no scoring — whenever the stocks tier's
parenthesised-ticker pattern matches the combined text, the result is
(Stocks, ticker) regardless of later tiers; on
"Apple (AAPL) and EUR/USD both move" it returns (Stocks, "AAPL") even
though the forex pattern also matches that text. -/
theorem C5_priority_order :
    (∀ title content t, parenSearch (mkText title content) = some t →
      extract_heuristic title content = some ("Stocks".data, t)) ∧
    extract_heuristic ("Apple (AAPL) and EUR/USD both move".data) [] =
      some ("Stocks".data, "AAPL".data) ∧
    (forexSearch (mkText ("Apple (AAPL) and EUR/USD both move".data) [])).isSome
      = true := by
  refine ⟨?_, by decide, by decide⟩
  intro title content t h
  unfold extract_heuristic
  simp [h]

theorem C5_priority_order_witness :
    parenSearch (mkText ("Oil slides as (XOM) gains".data) []) =
      some ("XOM".data) ∧
    extract_heuristic ("Oil slides as (XOM) gains".data) [] =
      some ("Stocks".data, "XOM".data) :=
  ⟨by decide, C5_priority_order.1 _ _ _ (by decide)⟩

/-- C9 counterexample: the claim says any run of six or more consecutive
uppercase letters matches the forex pattern; but "MEETING" is a run of
seven uppercase letters and the extractor finds no match at all (the
pattern needs a word boundary after exactly the sixth letter). -/
theorem C9_counterexample :
    "MEETING".data.all isUpperAZ = true ∧
    "MEETING".data.length = 7 ∧
    forexSearch ("MEETING".data) = none ∧
    extract_heuristic ("MEETING".data) [] = none := by decide

/-- C9 amended: a run of exactly six uppercase letters delimited by word
boundaries (such as the bare word "NASDAQ") matches the forex tier and is
classified as a pair made of its first and last three letters, without
reaching the later tiers; runs of seven or more do not match the pattern. -/
theorem C9_six_letter_uppercase_runs :
    extract_heuristic ("NASDAQ hits record highs".data) [] =
      some ("Forex".data, "NAS/DAQ".data) ∧
    forexSearch ("NASDAQ hits record highs".data) =
      some ("NAS".data, "DAQ".data) ∧
    extract_heuristic ("MEETINGS planned".data) [] = none := by decide

/-- C6: the tradability gate returns false whenever the stripped
instrument name is empty; it returns false for type "General" and for any
type outside Stocks/Forex/Crypto/Commodities/Indices; for the five
recognized types (matched case-insensitively) it validates name+title with
that type's pattern, the same pattern family the extractor tiers use. -/
theorem C6_is_tradable_gate :
    (∀ ty n t, pyStrip n = [] → is_tradable ty n t = false) ∧
    (∀ n t, is_tradable ("General".data) n t = false) ∧
    (∀ ty n t,
      (["stocks".data, "forex".data, "crypto".data, "commodities".data,
        "indices".data].all (fun x => !(x == ty.map toLowerC))) = true →
      is_tradable ty n t = false) ∧
    (∀ n t, pyStrip n ≠ [] →
      is_tradable ("Stocks".data) n t =
        ((parenSearch (pyStrip n ++ ' ' :: t)).isSome || bareTickHit (pyStrip n)) ∧
      is_tradable ("Forex".data) n t =
        (forexSearch (pyStrip n ++ ' ' :: t)).isSome ∧
      is_tradable ("Crypto".data) n t =
        (kwSearch cryptoTickers (pyStrip n ++ ' ' :: t)).isSome ∧
      is_tradable ("Commodities".data) n t =
        (kwSearch commodityWords (pyStrip n ++ ' ' :: t)).isSome ∧
      is_tradable ("Indices".data) n t =
        anyPosHit idxTradAlts (pyStrip n ++ ' ' :: t)) := by
  have hrec : ∀ ty n t,
      (["stocks".data, "forex".data, "crypto".data, "commodities".data,
        "indices".data].all (fun x => !(x == ty.map toLowerC))) = true →
      is_tradable ty n t = false := by
    intro ty n t hall
    simp only [List.all_cons, List.all_nil, Bool.and_eq_true, Bool.not_eq_true',
      beq_eq_false_iff_ne] at hall
    obtain ⟨h1, h2, h3, h4, h5, -⟩ := hall
    unfold is_tradable
    by_cases h : (pyStrip n).isEmpty = true
    · simp [h]
    · simp only [Bool.not_eq_true] at h
      simp [h, Ne.symm h1, Ne.symm h2, Ne.symm h3, Ne.symm h4, Ne.symm h5]
  refine ⟨?_, ?_, hrec, ?_⟩
  · intro ty n t h
    unfold is_tradable
    simp [h]
  · intro n t
    exact hrec ("General".data) n t (by decide)
  · intro n t hne
    have hmask : (pyStrip n).isEmpty = false := by
      cases hp : pyStrip n with
      | nil => exact absurd hp hne
      | cons c m => simp
    have eS : ("Stocks".data).map toLowerC = "stocks".data := by decide
    have eF : ("Forex".data).map toLowerC = "forex".data := by decide
    have eC : ("Crypto".data).map toLowerC = "crypto".data := by decide
    have eM : ("Commodities".data).map toLowerC = "commodities".data := by decide
    have eI : ("Indices".data).map toLowerC = "indices".data := by decide
    refine ⟨?_, ?_, ?_, ?_, ?_⟩
    · unfold is_tradable
      rw [eS]
      simp [hmask]
    · unfold is_tradable
      rw [eF]
      simp [hmask, (by decide : ("forex".data : List Char) ≠ "stocks".data)]
    · unfold is_tradable
      rw [eC]
      simp [hmask, (by decide : ("crypto".data : List Char) ≠ "stocks".data),
        (by decide : ("crypto".data : List Char) ≠ "forex".data)]
    · unfold is_tradable
      rw [eM]
      simp [hmask, (by decide : ("commodities".data : List Char) ≠ "stocks".data),
        (by decide : ("commodities".data : List Char) ≠ "forex".data),
        (by decide : ("commodities".data : List Char) ≠ "crypto".data)]
    · unfold is_tradable
      rw [eI]
      simp [hmask, (by decide : ("indices".data : List Char) ≠ "stocks".data),
        (by decide : ("indices".data : List Char) ≠ "forex".data),
        (by decide : ("indices".data : List Char) ≠ "crypto".data),
        (by decide : ("indices".data : List Char) ≠ "commodities".data)]

theorem C6_is_tradable_gate_witness :
    is_tradable ("Stocks".data) ("   ".data) ("Apple (AAPL) rises".data) = false ∧
    is_tradable ("General".data) ("AAPL".data) ("Apple rises".data) = false ∧
    is_tradable ("Bonds".data) ("US10Y".data) ("Yields firm".data) = false ∧
    is_tradable ("Forex".data) ("EUR/USD".data) ("Euro gains".data) =
      (forexSearch (pyStrip ("EUR/USD".data) ++ ' ' :: ("Euro gains".data))).isSome :=
  ⟨C6_is_tradable_gate.1 _ _ _ (by decide),
   C6_is_tradable_gate.2.1 _ _,
   C6_is_tradable_gate.2.2.1 _ _ _ (by decide),
   (C6_is_tradable_gate.2.2.2 _ _ (by decide)).2.1⟩

theorem hashesDistinct_append {storage : List Row} {row : Row}
    (hd : hashesDistinct storage)
    (hne : ∀ r ∈ storage, r.content_hash ≠ row.content_hash) :
    hashesDistinct (storage ++ [row]) := by
  unfold hashesDistinct at hd ⊢
  rw [List.pairwise_append]
  refine ⟨hd, List.pairwise_singleton _ _, ?_⟩
  intro a ha b hb
  simp only [List.mem_singleton] at hb
  rw [hb]
  exact hne a ha

/-- C4: persistence is idempotent on `content_hash` — when a row with the
item's (effective) content hash is already stored, the persister writes
nothing and reports the duplicate; consequently content hashes stay
pairwise distinct across every persist operation. -/
theorem C4_idempotent_insert (env : DbEnv) (storage : List Row) (it : Item) :
    ((∃ r ∈ storage, r.content_hash = chEff env it) →
      dbProcess env storage it =
        (.alreadyExists, storage, { it with content_hash := chEff env it })) ∧
    (hashesDistinct storage → hashesDistinct (dbProcess env storage it).2.1) := by
  constructor
  · rintro ⟨r, hr, hch⟩
    apply dbProcess_alreadyExists
    rw [List.any_eq_true]
    exact ⟨r, hr, by simp [hch]⟩
  · intro hdist
    by_cases hdup : storage.any (fun r => r.content_hash == chEff env it) = true
    · rw [dbProcess_alreadyExists env storage it hdup]
      exact hdist
    · simp only [Bool.not_eq_true] at hdup
      have hfreshP : ∀ r ∈ storage, r.content_hash ≠ chEff env it := by
        intro r hr
        have := List.any_eq_false.mp hdup r hr
        simpa using this
      by_cases hname : it.instrument_name.isEmpty = true
      · rw [dbProcess_emptyName env storage it hdup hname]
        exact hdist
      · simp only [Bool.not_eq_true] at hname
        cases hres : env.resolve with
        | ok osym =>
          cases osym with
          | some s =>
            rw [dbProcess_symbolOverwrite env storage it s hdup hname hres]
            exact hashesDistinct_append hdist (by
              intro r hr
              simpa [mkRow] using hfreshP r hr)
          | none =>
            cases hpol : env.allowUnverified with
            | false =>
              rw [dbProcess_noSymbol_drop env storage it hdup hname
                (Or.inl hres) hpol]
              exact hdist
            | true =>
              rw [dbProcess_noSymbol_keep env storage it hdup hname
                (Or.inl hres) hpol]
              exact hashesDistinct_append hdist (by
                intro r hr
                simpa [mkRow] using hfreshP r hr)
        | httpError =>
          cases hpol : env.allowUnverified with
          | false =>
            rw [dbProcess_noSymbol_drop env storage it hdup hname
              (Or.inr (Or.inl hres)) hpol]
            exact hdist
          | true =>
            rw [dbProcess_noSymbol_keep env storage it hdup hname
              (Or.inr (Or.inl hres)) hpol]
            exact hashesDistinct_append hdist (by
              intro r hr
              simpa [mkRow] using hfreshP r hr)
        | exnRaised =>
          cases hpol : env.allowUnverified with
          | false =>
            rw [dbProcess_noSymbol_drop env storage it hdup hname
              (Or.inr (Or.inr hres)) hpol]
            exact hdist
          | true =>
            rw [dbProcess_noSymbol_keep env storage it hdup hname
              (Or.inr (Or.inr hres)) hpol]
            exact hashesDistinct_append hdist (by
              intro r hr
              simpa [mkRow] using hfreshP r hr)

theorem C4_idempotent_insert_witness :
    dbProcess c4Env [c4Row] c4Item = (.alreadyExists, [c4Row], c4Item) ∧
    hashesDistinct (dbProcess c4Env [c4Row] c4Item).2.1 := by
  have h1 := (C4_idempotent_insert c4Env [c4Row] c4Item).1 (by decide)
  have h2 := (C4_idempotent_insert c4Env [c4Row] c4Item).2 (by
    unfold hashesDistinct
    exact List.pairwise_singleton _ _)
  constructor
  · rw [h1]
    congr 1
  · exact h2

/-- C7: for every item that reaches the symbol-resolution step (fresh
fingerprint, non-empty instrument name): a resolved symbol overwrites
`instrument_name` in the stored row; with no symbol (empty payload,
non-200 response or exception) the item is dropped with no write and no
error when the allow-unverified policy is disabled, and is written with
its existing unverified name when the policy is enabled. -/
theorem C7_symbol_resolution (env : DbEnv) (storage : List Row) (it : Item)
    (hfresh : storage.any (fun r => r.content_hash == chEff env it) = false)
    (hname : it.instrument_name.isEmpty = false) :
    (∀ s, env.resolve = .ok (some s) →
      (dbProcess env storage it).1 = .inserted ∧
      ((dbProcess env storage it).2.1.map Row.instrument_name) =
        (storage.map Row.instrument_name) ++ [s]) ∧
    (noSymbol env.resolve → env.allowUnverified = false →
      dbProcess env storage it =
        (.dropped, storage, { it with content_hash := chEff env it })) ∧
    (noSymbol env.resolve → env.allowUnverified = true →
      (dbProcess env storage it).1 = .inserted ∧
      ((dbProcess env storage it).2.1.map Row.instrument_name) =
        (storage.map Row.instrument_name) ++ [it.instrument_name]) := by
  refine ⟨?_, ?_, ?_⟩
  · intro s hres
    rw [dbProcess_symbolOverwrite env storage it s hfresh hname hres]
    simp [mkRow]
  · intro hres hpol
    exact dbProcess_noSymbol_drop env storage it hfresh hname hres hpol
  · intro hres hpol
    rw [dbProcess_noSymbol_keep env storage it hfresh hname hres hpol]
    simp [mkRow]

theorem C7_symbol_resolution_witness :
    ((dbProcess c7EnvSym [] c7Item).2.1.map Row.instrument_name) =
      ["EURUSD=X".data] ∧
    dbProcess c7EnvDrop [] c7Item =
      (.dropped, [], c7Item) ∧
    ((dbProcess c7EnvKeep [] c7Item).2.1.map Row.instrument_name) =
      ["EUR/USD".data] := by
  have h1 := ((C7_symbol_resolution c7EnvSym [] c7Item (by decide)
    (by decide)).1 ("EURUSD=X".data) (by decide)).2
  have h2 := (C7_symbol_resolution c7EnvDrop [] c7Item (by decide)
    (by decide)).2.1 (by
      unfold noSymbol
      exact Or.inr (Or.inl rfl)) (by decide)
  have h3 := ((C7_symbol_resolution c7EnvKeep [] c7Item (by decide)
    (by decide)).2.2 (by
      unfold noSymbol
      exact Or.inr (Or.inr rfl)) (by decide)).2
  refine ⟨by simpa using h1, ?_, by simpa using h3⟩
  rw [h2]
  congr 1

/-- C8: the stored `published_at` is the parsed ISO conversion of a
parseable `published_date` string, and the current processing time when
the date is absent, an unparseable (or empty) string, or any non-string
value; the inserted row carries exactly this normalized value. -/
theorem C8_published_at_normalization
    (parse : List Char → Option (List Char)) (now s iso : List Char)
    (env : DbEnv) (storage : List Row) (it : Item) :
    (s ≠ [] → parse s = some iso → normalizePub parse now (.strv s) = iso) ∧
    (parse s = none → normalizePub parse now (.strv s) = now) ∧
    normalizePub parse now .absent = now ∧
    normalizePub parse now .nonString = now ∧
    (storage.any (fun r => r.content_hash == chEff env it) = false →
      it.instrument_name.isEmpty = false →
      resolveProceeds env →
      ((dbProcess env storage it).2.1.map Row.published_at) =
        (storage.map Row.published_at) ++
          [normalizePub env.parseDate env.now it.published_date]) := by
  refine ⟨?_, ?_, rfl, rfl, ?_⟩
  · intro hne hp
    have : s.isEmpty = false := by
      cases s with
      | nil => exact absurd rfl hne
      | cons c m => simp
    simp [normalizePub, this, hp]
  · intro hp
    by_cases hse : s.isEmpty = true
    · simp [normalizePub, hse]
    · simp only [Bool.not_eq_true] at hse
      simp [normalizePub, hse, hp]
  · intro hfresh hname hproc
    rcases hproc with ⟨sym, hres⟩ | ⟨hres, hpol⟩
    · rw [dbProcess_symbolOverwrite env storage it sym hfresh hname hres]
      simp [mkRow]
    · rw [dbProcess_noSymbol_keep env storage it hfresh hname hres hpol]
      simp [mkRow]

theorem C8_published_at_normalization_witness :
    normalizePub c8Parse ("2025-06-01T00:00:00".data)
      (.strv ("2024-12-31".data)) = "2024-12-31T00:00:00".data ∧
    normalizePub c8Parse ("2025-06-01T00:00:00".data)
      (.strv ("not a date".data)) = "2025-06-01T00:00:00".data ∧
    normalizePub c8Parse ("2025-06-01T00:00:00".data) .nonString =
      "2025-06-01T00:00:00".data ∧
    ((dbProcess c8Env [] c8Item).2.1.map Row.published_at) =
      ["2024-12-31T00:00:00".data] := by
  have base := C8_published_at_normalization c8Parse
    ("2025-06-01T00:00:00".data) ("2024-12-31".data)
    ("2024-12-31T00:00:00".data) c8Env [] c8Item
  refine ⟨base.1 (by decide) (by decide), ?_, base.2.2.2.1, ?_⟩
  · have h2 := (C8_published_at_normalization c8Parse
      ("2025-06-01T00:00:00".data) ("not a date".data) [] c8Env [] c8Item).2.1
    exact h2 (by decide)
  · have h5 := base.2.2.2.2 (by decide) (by decide) (by
      unfold resolveProceeds
      exact Or.inr ⟨Or.inl rfl, rfl⟩)
    simpa using h5

/-- C1 counterexample: a classification result carrying recommendation
"HOLD" is not rejected — after the AI-success update step the item keeps
recommendation HOLD and the persister inserts it, so a persisted row with
recommendation HOLD exists. -/
theorem C1_counterexample :
    (aiUpdate c1Analysis c1Item).recommendation = "HOLD".data ∧
    (dbProcess c1Env [] (aiUpdate c1Analysis c1Item)).1 = .inserted ∧
    ((dbProcess c1Env [] (aiUpdate c1Analysis c1Item)).2.1.map
      Row.recommendation) = ["HOLD".data] := by decide

/-- C1 amended: the pipeline contains no HOLD filter — whatever
recommendation an item carries (including "HOLD") is stored verbatim
whenever the item is persisted at all. -/
theorem C1_amended_no_hold_filter (env : DbEnv) (storage : List Row) (it : Item)
    (hfresh : storage.any (fun r => r.content_hash == chEff env it) = false)
    (hname : it.instrument_name.isEmpty = false)
    (hproc : resolveProceeds env) :
    (dbProcess env storage it).1 = .inserted ∧
    ((dbProcess env storage it).2.1.map Row.recommendation) =
      (storage.map Row.recommendation) ++ [it.recommendation] := by
  rcases hproc with ⟨sym, hres⟩ | ⟨hres, hpol⟩
  · rw [dbProcess_symbolOverwrite env storage it sym hfresh hname hres]
    simp [mkRow]
  · rw [dbProcess_noSymbol_keep env storage it hfresh hname hres hpol]
    simp [mkRow]

theorem C1_amended_no_hold_filter_witness :
    ((dbProcess c1Env [] (aiUpdate c1Analysis c1Item)).2.1.map
      Row.recommendation) = [] ++ ["HOLD".data] := by
  have h := (C1_amended_no_hold_filter c1Env [] (aiUpdate c1Analysis c1Item)
    (by decide) (by decide) (by
      unfold resolveProceeds
      exact Or.inl ⟨"AAPL".data, rfl⟩)).2
  simpa using h

/-- C3 counterexample: with remote analysis unavailable, the classifier
does not run the Instrument Extractor and never derives SELL/BUY from
keywords — on the Gold/plunge/selloff title (where the extractor would
yield Commodities/"Gold") the produced recommendation is "HOLD", not
"SELL", and the item is not even persisted: the persister's last-resort
heuristic call raises (the method is undefined on `DatabasePipeline`), so
the item ends in a rolled-back storage error with no row written. -/
theorem C3_counterexample :
    extract_heuristic c3Item.title c3Item.content =
      some ("Commodities".data, "Gold".data) ∧
    (aiProcess .unavailable c3Item).recommendation = "HOLD".data ∧
    ¬((aiProcess .unavailable c3Item).recommendation = "SELL".data) ∧
    (aiProcess .unavailable c3Item).confidence_score = 50 ∧
    (dbProcess c3Env [] (aiProcess .unavailable c3Item)).1 = .errorRollback ∧
    (dbProcess c3Env [] (aiProcess .unavailable c3Item)).2.1 = [] := by decide

/-- C3 amended: on the remote-unavailable path the classifier assigns the
fixed defaults General / empty name / HOLD / 50 for every item (no
keyword scan, no extractor call), and any such item that is not an exact
duplicate ends in the persister's error-rollback branch (its heuristic
retry calls a method the class does not define), so no row is written. -/
theorem C3_amended_unavailable_defaults (env : DbEnv) (storage : List Row)
    (it : Item) :
    (aiProcess .unavailable it).instrument_type = "General".data ∧
    (aiProcess .unavailable it).instrument_name = [] ∧
    (aiProcess .unavailable it).recommendation = "HOLD".data ∧
    (aiProcess .unavailable it).confidence_score = 50 ∧
    (aiProcess .unavailable it).analysis = "AI analysis not available".data ∧
    (storage.any (fun r =>
        r.content_hash == chEff env (aiProcess .unavailable it)) = false →
      dbProcess env storage (aiProcess .unavailable it) =
        (.errorRollback, storage,
         { aiProcess .unavailable it with
             content_hash := chEff env (aiProcess .unavailable it) })) := by
  refine ⟨rfl, rfl, rfl, rfl, rfl, ?_⟩
  intro hfresh
  exact dbProcess_emptyName env storage (aiProcess .unavailable it) hfresh rfl

theorem C3_amended_unavailable_defaults_witness :
    dbProcess c3Env [] (aiProcess .unavailable c3Item) =
      (.errorRollback, [],
       { aiProcess .unavailable c3Item with
           content_hash := chEff c3Env (aiProcess .unavailable c3Item) }) :=
  (C3_amended_unavailable_defaults c3Env [] c3Item).2.2.2.2.2 (by decide)

/-- C2: the soft-duplicate check compares the incoming normalized title's
token set against the raw md5 fingerprints held in `seen_hashes`, not
against previous titles (the spec's §9 note flags exactly this conflation
in the source). Consequently, for any fingerprint function shaped like an
md5 hex digest (32 characters, no whitespace, distinct on the two URLs),
both Apple items are accepted: the near-duplicate "… beat report" title is
NOT rejected, contradicting the claimed Jaccard-on-titles behaviour. -/
theorem C2_soft_check_compares_fingerprints
    (hash : List Char → List Char) (h1 h2 : List Char)
    (e1 : hash (dedupBase c2ItemA) = h1)
    (e2 : hash (dedupBase c2ItemB) = h2)
    (h1len : h1.length = 32) (h1ws : ∀ c ∈ h1, isWs c = false)
    (h2len : h2.length = 32) (h2ws : ∀ c ∈ h2, isWs c = false)
    (hne : h1 ≠ h2) :
    (dedupProcess hash [] c2ItemA).1.isSome = true ∧
    (dedupProcess hash (dedupProcess hash [] c2ItemA).2 c2ItemB).1.isSome
      = true := by
  have h1nil : h1 ≠ [] := by
    intro h0
    rw [h0] at h1len
    simp at h1len
  have h2nil : h2 ≠ [] := by
    intro h0
    rw [h0] at h2len
    simp at h2len
  have hs1 : pySplit h1 = [h1] := pySplit_no_ws h1nil h1ws
  have hs2 : pySplit h2 = [h2] := pySplit_no_ws h2nil h2ws
  have tokABound : ∀ t ∈ pySplit (normalize_title c2ItemA.title),
      t.length < 32 := by decide
  have tokBBound : ∀ t ∈ pySplit (normalize_title c2ItemB.title),
      t.length < 32 := by decide
  have hm1A : h1 ∉ (pySplit (normalize_title c2ItemA.title)).toFinset := by
    rw [List.mem_toFinset]
    intro hm
    have := tokABound h1 hm
    omega
  have hm1B : h1 ∉ (pySplit (normalize_title c2ItemB.title)).toFinset := by
    rw [List.mem_toFinset]
    intro hm
    have := tokBBound h1 hm
    omega
  have hm2B : h2 ∉ (pySplit (normalize_title c2ItemB.title)).toFinset := by
    rw [List.mem_toFinset]
    intro hm
    have := tokBBound h2 hm
    omega
  have accA : dedupProcess hash [] c2ItemA =
      (some { c2ItemA with content_hash := hash (dedupBase c2ItemA) },
       [] ++ [hash (dedupBase c2ItemA)]) := by
    apply dedupProcess_accepts
    · rfl
    · intro fp hfp
      rw [e1] at hfp
      rw [List.nil_append, List.take_of_length_le (by simp)] at hfp
      simp only [List.mem_singleton] at hfp
      subst hfp
      rw [hs1]
      simp only [List.toFinset_cons, List.toFinset_nil, insert_emptyc_eq]
      exact jaccardReject_single_not_mem _ hm1A
  have accB : dedupProcess hash [hash (dedupBase c2ItemA)] c2ItemB =
      (some { c2ItemB with content_hash := hash (dedupBase c2ItemB) },
       [hash (dedupBase c2ItemA)] ++ [hash (dedupBase c2ItemB)]) := by
    apply dedupProcess_accepts
    · rw [e1, e2]
      simp only [List.any_cons, List.any_nil, Bool.or_false]
      rw [Bool.eq_false_iff]
      intro hc
      exact hne (by simpa using hc)
    · intro fp hfp
      rw [e1, e2] at hfp
      rw [List.take_of_length_le (by simp)] at hfp
      simp only [List.cons_append, List.nil_append, List.mem_cons,
        List.mem_singleton, List.not_mem_nil, or_false] at hfp
      rcases hfp with rfl | rfl
      · rw [hs1]
        simp only [List.toFinset_cons, List.toFinset_nil, insert_emptyc_eq]
        exact jaccardReject_single_not_mem _ hm1B
      · rw [hs2]
        simp only [List.toFinset_cons, List.toFinset_nil, insert_emptyc_eq]
        exact jaccardReject_single_not_mem _ hm2B
  constructor
  · rw [accA]
    rfl
  · rw [accA]
    simp only [List.nil_append]
    rw [accB]
    rfl

theorem C2_soft_check_compares_fingerprints_witness :
    (dedupProcess c2Hash [] c2ItemA).1.isSome = true ∧
    (dedupProcess c2Hash (dedupProcess c2Hash [] c2ItemA).2 c2ItemB).1.isSome
      = true :=
  C2_soft_check_compares_fingerprints c2Hash c2HashA c2HashB
    (by decide) (by decide) (by decide) (by decide) (by decide) (by decide)
    (by decide)

theorem C10_normalize_title_idempotent_witness :
    normalize_title (normalize_title ("  Gold, WILL rally -- 7% !!".data)) =
      normalize_title ("  Gold, WILL rally -- 7% !!".data) ∧
    normalize_title ("  Gold, WILL rally -- 7% !!".data) =
      "gold will rally 7".data :=
  ⟨(C10_normalize_title_idempotent ("  Gold, WILL rally -- 7% !!".data)).2,
   by decide⟩
